import Mathlib

/-!
Verification development for the lime messaging library (Go).

The definitions below are a shallow embedding of the library's envelope
codec (message and notification envelopes), the default document registry,
and the TCP transport state machine.  Pure Go functions become Lean
functions; JSON is modelled as an inductive value type (so statements are
automatically up to insignificant whitespace); fallible Go functions
return `Except String`.  Definitions whose Go source is part of the
repository follow that source; the few marked `Modelled from the spec:`
embed repository code that is only described by the specification.
-/

set_option maxHeartbeats 1000000

namespace Lime

/-- Split a character list at the first occurrence of `c`: returns the
parts strictly before and strictly after that occurrence, or `none` when
`c` does not occur. -/
def splitFirst (c : Char) : List Char → Option (List Char × List Char)
  | [] => none
  | x :: xs =>
    if x = c then some ([], xs)
    else (splitFirst c xs).map (fun p => (x :: p.1, p.2))

/-- Split a character list at the last occurrence of `c`. -/
def splitLast (c : Char) (s : List Char) : Option (List Char × List Char) :=
  (splitFirst c s.reverse).map (fun p => (p.2.reverse, p.1.reverse))

theorem splitFirst_of_not_mem {c : Char} {s : List Char} (h : c ∉ s) :
    splitFirst c s = none := by
  induction s with
  | nil => rfl
  | cons x xs ih =>
    simp only [List.mem_cons, not_or] at h
    simp [splitFirst, Ne.symm h.1, ih h.2]

theorem splitFirst_append {c : Char} {a b : List Char} (h : c ∉ a) :
    splitFirst c (a ++ c :: b) = some (a, b) := by
  induction a with
  | nil => simp [splitFirst]
  | cons x xs ih =>
    simp only [List.mem_cons, not_or] at h
    simp [splitFirst, Ne.symm h.1, ih h.2]

theorem splitLast_of_not_mem {c : Char} {s : List Char} (h : c ∉ s) :
    splitLast c s = none := by
  have h' : c ∉ s.reverse := by simpa using h
  rw [splitLast, splitFirst_of_not_mem h']
  rfl

theorem splitLast_append {c : Char} {a b : List Char} (h : c ∉ b) :
    splitLast c (a ++ c :: b) = some (a, b) := by
  have h' : c ∉ b.reverse := by simpa using h
  have hrev : (a ++ c :: b).reverse = b.reverse ++ c :: a.reverse := by
    simp [List.reverse_append]
  rw [splitLast, hrev, splitFirst_append h']
  simp

theorem toList_asString (l : List Char) : (List.asString l).toList = l := rfl

theorem asString_toList (s : String) : (String.toList s).asString = s := rfl

/-- Identity of a lime node: who a party claims to be.
Modelled from the spec: the `Identity` type lives in a repository file
that is not part of the provided sources; the spec gives it a `name` and
a `domain` with textual form `name@domain`. -/
structure Identity where
  Name : String
  Domain : String
deriving DecidableEq, Repr

/-- Routable lime address: an identity plus an instance label.
Modelled from the spec: textual form `name@domain/instance`. -/
structure Node where
  Ident : Identity
  Inst : String
deriving DecidableEq, Repr

/-- Modelled from the spec: the textual form of an identity is
`name@domain`, with the separator retained only when needed. -/
def Identity.text (i : Identity) : List Char :=
  i.Name.toList ++ (if i.Domain = "" then [] else '@' :: i.Domain.toList)

/-- Modelled from the spec: an identity parses by splitting on `@`;
empty components are permitted. -/
def ParseIdentity (s : List Char) : Identity :=
  match splitFirst '@' s with
  | none => ⟨s.asString, ""⟩
  | some p => ⟨p.1.asString, p.2.asString⟩

/-- Modelled from the spec: the textual form of a node is
`name@domain/instance`, separators retained only when needed. -/
def Node.text (n : Node) : List Char :=
  n.Ident.text ++ (if n.Inst = "" then [] else '/' :: n.Inst.toList)

/-- Modelled from the spec: a node parses by splitting on the last `/`
then on `@`; empty components are permitted. -/
def ParseNode (s : List Char) : Node :=
  match splitLast '/' s with
  | none => ⟨ParseIdentity s, ""⟩
  | some p => ⟨ParseIdentity p.1, p.2.asString⟩

/-- Well-formedness of an identity for textual round-tripping: the name
contains neither separator and the domain contains no slash. -/
def Identity.wf (i : Identity) : Prop :=
  '@' ∉ i.Name.toList ∧ '/' ∉ i.Name.toList ∧ '/' ∉ i.Domain.toList

instance (i : Identity) : Decidable i.wf := by
  unfold Identity.wf; infer_instance

/-- Well-formedness of a node for textual round-tripping. -/
def Node.wf (n : Node) : Prop :=
  n.Ident.wf ∧ '/' ∉ n.Inst.toList

instance (n : Node) : Decidable n.wf := by
  unfold Node.wf; infer_instance

theorem ParseIdentity_text {i : Identity} (h : i.wf) :
    ParseIdentity i.text = i := by
  rcases i with ⟨n, d⟩
  obtain ⟨h1, -, -⟩ := h
  have h1' : '@' ∉ n.toList := h1
  unfold ParseIdentity
  by_cases hd : d = ""
  · subst hd
    have htext : Identity.text ⟨n, ""⟩ = n.toList := by
      show n.toList ++ (if ("" : String) = "" then [] else _) = n.toList
      rw [if_pos rfl, List.append_nil]
    rw [htext, splitFirst_of_not_mem h1']
    show Identity.mk (n.toList.asString) "" = ⟨n, ""⟩
    rw [asString_toList]
  · have htext : Identity.text ⟨n, d⟩ = n.toList ++ '@' :: d.toList := by
      show n.toList ++ (if d = "" then [] else '@' :: d.toList) = _
      rw [if_neg hd]
    rw [htext, splitFirst_append h1']
    show Identity.mk (n.toList.asString) (d.toList.asString) = ⟨n, d⟩
    rw [asString_toList, asString_toList]

theorem not_slash_mem_text {i : Identity} (h : i.wf) :
    '/' ∉ i.text := by
  obtain ⟨-, h2, h3⟩ := h
  unfold Identity.text
  by_cases hd : i.Domain = ""
  · rw [if_pos hd]
    simpa using h2
  · rw [if_neg hd]
    simp only [List.mem_append, List.mem_cons, not_or]
    refine ⟨h2, ?_, h3⟩
    decide

theorem ParseNode_text {n : Node} (h : n.wf) :
    ParseNode n.text = n := by
  obtain ⟨hi, h2⟩ := h
  have hparse := ParseIdentity_text hi
  have hslash := not_slash_mem_text hi
  rcases n with ⟨i, ins⟩
  have h2' : '/' ∉ ins.toList := h2
  have hparse' : ParseIdentity i.text = i := hparse
  have hslash' : '/' ∉ i.text := hslash
  unfold ParseNode
  by_cases hins : ins = ""
  · subst hins
    have htext : Node.text ⟨i, ""⟩ = i.text := by
      show i.text ++ (if ("" : String) = "" then [] else _) = i.text
      rw [if_pos rfl, List.append_nil]
    rw [htext, splitLast_of_not_mem hslash']
    show Node.mk (ParseIdentity i.text) "" = ⟨i, ""⟩
    rw [hparse']
  · have htext : Node.text ⟨i, ins⟩ = i.text ++ '/' :: ins.toList := by
      show i.text ++ (if ins = "" then [] else '/' :: ins.toList) = _
      rw [if_neg hins]
    rw [htext, splitLast_append h2']
    show Node.mk (ParseIdentity i.text) (ins.toList.asString) = ⟨i, ins⟩
    rw [hparse', asString_toList]

/-- MIME media type of a document.
Modelled from the spec: `(type, subtype, suffix?)` with textual form
`type/subtype` or `type/subtype+suffix`; an absent suffix is the empty
string, as in the Go struct literal `MediaType{"text", "unknown", ""}`
used by the repository's tests. -/
structure MediaType where
  Typ : String
  Subtype : String
  Suffix : String
deriving DecidableEq, Repr

/-- Modelled from the spec: `IsJson` holds iff the suffix is exactly
`json` or the media type equals `application/json`. -/
def MediaType.IsJson (t : MediaType) : Bool :=
  t.Suffix == "json" || (t.Typ == "application" && t.Subtype == "json" && t.Suffix == "")

/-- Modelled from the spec: textual form of a media type. -/
def MediaType.text (t : MediaType) : List Char :=
  t.Typ.toList ++ '/' :: (t.Subtype.toList ++
    (if t.Suffix = "" then [] else '+' :: t.Suffix.toList))

/-- Split the part of a media type after the slash on its last `+` into
a subtype and an optional suffix. -/
def parseSubSuffix (s : List Char) : String × String :=
  match splitLast '+' s with
  | none => (s.asString, "")
  | some q => (q.1.asString, q.2.asString)

/-- Modelled from the spec: a media type parses by splitting on the first
`/` into type and remainder, then on the last `+` into subtype and
suffix; a string with no `/` is not a media type. -/
def ParseMediaType (s : List Char) : Option MediaType :=
  match splitFirst '/' s with
  | none => none
  | some p => some ⟨p.1.asString, (parseSubSuffix p.2).1, (parseSubSuffix p.2).2⟩

theorem parseSubSuffix_of_not_mem {s : List Char} (h : '+' ∉ s) :
    parseSubSuffix s = (s.asString, "") := by
  unfold parseSubSuffix
  rw [splitLast_of_not_mem h]

theorem parseSubSuffix_append {a b : List Char} (h : '+' ∉ b) :
    parseSubSuffix (a ++ '+' :: b) = (a.asString, b.asString) := by
  unfold parseSubSuffix
  rw [splitLast_append h]

/-- Well-formedness of a media type for textual round-tripping. -/
def MediaType.wf (t : MediaType) : Prop :=
  '/' ∉ t.Typ.toList ∧ '+' ∉ t.Subtype.toList ∧ '+' ∉ t.Suffix.toList

instance (t : MediaType) : Decidable t.wf := by
  unfold MediaType.wf; infer_instance

theorem ParseMediaType_text {t : MediaType} (h : t.wf) :
    ParseMediaType t.text = some t := by
  rcases t with ⟨ty, sub, suf⟩
  obtain ⟨h1, h2, h3⟩ := h
  have h1' : '/' ∉ ty.toList := h1
  have h2' : '+' ∉ sub.toList := h2
  have h3' : '+' ∉ suf.toList := h3
  unfold ParseMediaType
  by_cases hs : suf = ""
  · subst hs
    have htext : MediaType.text ⟨ty, sub, ""⟩ = ty.toList ++ '/' :: sub.toList := by
      show ty.toList ++ '/' :: (sub.toList ++ (if ("" : String) = "" then []
        else '+' :: ("" : String).toList)) = ty.toList ++ '/' :: sub.toList
      rw [if_pos rfl, List.append_nil]
    rw [htext, splitFirst_append h1']
    show some (MediaType.mk (ty.toList.asString) (parseSubSuffix sub.toList).1
      (parseSubSuffix sub.toList).2) = some ⟨ty, sub, ""⟩
    rw [parseSubSuffix_of_not_mem h2', asString_toList, asString_toList]
  · have htext : MediaType.text ⟨ty, sub, suf⟩ =
        ty.toList ++ '/' :: (sub.toList ++ '+' :: suf.toList) := by
      show ty.toList ++ '/' :: (sub.toList ++ (if suf = "" then [] else '+' :: suf.toList)) =
        ty.toList ++ '/' :: (sub.toList ++ '+' :: suf.toList)
      rw [if_neg hs]
    rw [htext, splitFirst_append h1']
    show some (MediaType.mk (ty.toList.asString)
      (parseSubSuffix (sub.toList ++ '+' :: suf.toList)).1
      (parseSubSuffix (sub.toList ++ '+' :: suf.toList)).2) = some ⟨ty, sub, suf⟩
    rw [parseSubSuffix_append h3', asString_toList, asString_toList, asString_toList]

/-- JSON values. Objects are association lists of key/value pairs, so
every statement below is automatically insensitive to JSON whitespace,
and object-key order is tracked explicitly. -/
inductive Json where
  | str (s : String)
  | num (n : Int)
  | bool (b : Bool)
  | null
  | arr (xs : List Json)
  | obj (fields : List (String × Json))

/-- A document carried by an envelope: the repository's default types.
`plain` is `PlainDocument` (a raw string) and `json` is `JsonDocument`
(a generic JSON object). -/
inductive Document where
  | plain (s : String)
  | json (fields : List (String × Json))

def mediaTypeTextPlain : MediaType := ⟨"text", "plain", ""⟩

def mediaTypeApplicationJson : MediaType := ⟨"application", "json", ""⟩

/-- Modelled from the spec: each document type carries its media type;
`PlainDocument` is `text/plain` and `JsonDocument` is `application/json`. -/
def Document.GetMediaType : Document → MediaType
  | .plain _ => mediaTypeTextPlain
  | .json _ => mediaTypeApplicationJson

/-- JSON marshalling of a default document. -/
def Document.toJson : Document → Json
  | .plain s => .str s
  | .json f => .obj f

/-- Decoding a JSON value into `PlainDocument` (Go string target):
anything other than a JSON string fails. -/
def plainFactory : Json → Except String Document
  | .str s => .ok (.plain s)
  | _ => .error "cannot unmarshal content into a string document"

/-- Decoding a JSON value into `JsonDocument` (Go map target): anything
other than a JSON object fails. -/
def jsonFactory : Json → Except String Document
  | .obj f => .ok (.json f)
  | _ => .error "cannot unmarshal content into a json document"

/-- Modelled from the spec: the default document registry maps
`text/plain` to the raw-string factory and `application/json` to the
generic JSON-object factory. -/
def documentFactories : List (MediaType × (Json → Except String Document)) :=
  [(mediaTypeTextPlain, plainFactory), (mediaTypeApplicationJson, jsonFactory)]

def findFactory (t : MediaType) : Option (Json → Except String Document) :=
  (documentFactories.find? (fun p => p.1 == t)).map Prod.snd

/-- Modelled from the spec: `UnmarshalDocument` consults the registry
with the envelope's type; with no registered factory, an unknown MIME
with a `+json` suffix yields the generic JSON mapping document and any
other unknown type yields the raw string document. -/
def UnmarshalDocument (raw : Json) (t : MediaType) : Except String Document :=
  match findFactory t with
  | some f => f raw
  | none => if t.IsJson then jsonFactory raw else plainFactory raw

/-- Failure detail attached to notifications, commands and sessions. -/
structure Reason where
  Code : Int
  Description : String
deriving DecidableEq, Repr

/-- Events of the message pipeline (a Go string type). -/
abbrev NotificationEvent := String

def NotificationEventAccepted : NotificationEvent := "accepted"

def NotificationEventDispatched : NotificationEvent := "dispatched"

def NotificationEventReceived : NotificationEvent := "received"

def NotificationEventConsumed : NotificationEvent := "consumed"

def NotificationEventFailed : NotificationEvent := "failed"

/-- Validation of a notification event, as in `notification.go`: the
value must be one of the five declared constants. -/
def NotificationEvent.Validate (e : NotificationEvent) : Except String Unit :=
  if e = NotificationEventAccepted ∨ e = NotificationEventDispatched ∨
      e = NotificationEventReceived ∨ e = NotificationEventConsumed ∨
      e = NotificationEventFailed then
    .ok ()
  else
    .error ("invalid notification event '" ++ e ++ "'")

/-- Text marshalling of a notification event: validates, then emits the
value itself. -/
def NotificationEvent.MarshalText (e : NotificationEvent) : Except String String :=
  match e.Validate with
  | .error err => .error err
  | .ok _ => .ok e

/-- Text unmarshalling of a notification event: validates the incoming
text, then assigns it. -/
def NotificationEvent.UnmarshalText (text : String) : Except String NotificationEvent :=
  match NotificationEvent.Validate text with
  | .error err => .error err
  | .ok _ => .ok text

/-- Shared header of every envelope kind.
Modelled from the spec: `id`, `from`, `pp`, `to` and `metadata` are the
common properties of all envelopes. -/
structure EnvelopeBase where
  ID : String
  From : Option Node
  PP : Option Node
  To : Option Node
  Metadata : List (String × String)
deriving DecidableEq

/-- Permissive two-phase decoding target: all marker and payload fields
of the four envelope kinds, each optional, with payloads kept as opaque
JSON. Modelled from the spec (the Go `rawEnvelope` is outside the
provided sources); only the fields used by the message and notification
kinds are carried. -/
structure RawEnvelope where
  ID : String
  From : Option Node
  PP : Option Node
  To : Option Node
  Metadata : List (String × String)
  Typ : Option MediaType
  Content : Option Json
  Event : Option NotificationEvent
  Reason : Option Lime.Reason

/-- Modelled from the spec: converting the shared header to a raw
envelope copies the common fields; payload fields stay absent. -/
def EnvelopeBase.ToRawEnvelope (e : EnvelopeBase) : Except String RawEnvelope :=
  .ok ⟨e.ID, e.From, e.PP, e.To, e.Metadata, none, none, none, none⟩

/-- Modelled from the spec: populating the shared header from a raw
envelope copies the common fields. -/
def EnvelopeBase.Populate (raw : RawEnvelope) : Except String EnvelopeBase :=
  .ok ⟨raw.ID, raw.From, raw.PP, raw.To, raw.Metadata⟩

/-- Transport of a content document between nodes. -/
structure Message where
  Base : EnvelopeBase
  Typ : MediaType
  Content : Option Document

/-- Sets the content and aligns the type with the document's media type. -/
def Message.SetContent (m : Message) (d : Document) : Message :=
  { m with Content := some d, Typ := d.GetMediaType }

/-- Conversion of a message to a raw envelope: the content is required,
then marshalled to raw JSON alongside the declared type. -/
def Message.ToRawEnvelope (m : Message) : Except String RawEnvelope := do
  let raw ← m.Base.ToRawEnvelope
  match m.Content with
  | none => .error "message content is required"
  | some d => .ok { raw with Typ := some m.Typ, Content := some d.toJson }

/-- Population of a message from a raw envelope: `type` and `content`
are required, and the content is decoded through the document registry. -/
def Message.Populate (raw : RawEnvelope) : Except String Message := do
  let base ← EnvelopeBase.Populate raw
  match raw.Typ with
  | none => .error "message type is required"
  | some t =>
    match raw.Content with
    | none => .error "message content is required"
    | some c => do
      let d ← UnmarshalDocument c t
      .ok ⟨base, t, some d⟩

/-- Information about events associated to a message. -/
structure Notification where
  Base : EnvelopeBase
  Event : NotificationEvent
  Reason : Option Lime.Reason
deriving DecidableEq

/-- Conversion of a notification to a raw envelope: a non-empty event is
copied, and the reason is copied verbatim. -/
def Notification.toRawEnvelope (n : Notification) : Except String RawEnvelope := do
  let raw ← n.Base.ToRawEnvelope
  let raw := if n.Event ≠ "" then { raw with Event := some n.Event } else raw
  .ok { raw with Reason := n.Reason }

/-- Population of a notification from a raw envelope: the event is
required; the reason is copied verbatim. -/
def Notification.populate (raw : RawEnvelope) : Except String Notification := do
  let base ← EnvelopeBase.Populate raw
  match raw.Event with
  | none => .error "notification event is required"
  | some e => .ok ⟨base, e, raw.Reason⟩

/-- Key lookup in a JSON object's field list (first occurrence). -/
def Json.lookup (k : String) : List (String × Json) → Option Json
  | [] => none
  | p :: rest => if p.1 = k then some p.2 else Json.lookup k rest

/-- A JSON object field that is present only when its value is. -/
def optField (k : String) : Option Json → List (String × Json)
  | none => []
  | some v => [(k, v)]

/-- A node serializes as its textual form. -/
def nodeJson (n : Node) : Json := .str n.text.asString

/-- A media type serializes as its textual form. -/
def mtJson (t : MediaType) : Json := .str t.text.asString

/-- Metadata serializes as a string-to-string JSON object. -/
def metadataJson (md : List (String × String)) : Json :=
  .obj (md.map (fun p => (p.1, Json.str p.2)))

/-- A reason serializes as an object with `code` and `description`. -/
def reasonJson (r : Lime.Reason) : Json :=
  .obj [("code", .num r.Code), ("description", .str r.Description)]

/-- Modelled from the spec: serialization of a raw envelope. Every field
is emitted only when present (`omitempty`); `metadata` is omitted when
the mapping is empty; nodes and media types are emitted in textual form;
the event goes through its validating text marshaller. -/
def RawEnvelope.toJson (raw : RawEnvelope) : Except String Json := do
  let ev ← match raw.Event with
    | none => pure (none : Option Json)
    | some e => do
      let s ← e.MarshalText
      pure (some (Json.str s))
  .ok (.obj (
    optField "id" (if raw.ID = "" then none else some (.str raw.ID)) ++
    optField "from" (raw.From.map nodeJson) ++
    optField "pp" (raw.PP.map nodeJson) ++
    optField "to" (raw.To.map nodeJson) ++
    optField "metadata" (if raw.Metadata = [] then none else some (metadataJson raw.Metadata)) ++
    optField "type" (raw.Typ.map mtJson) ++
    optField "content" raw.Content ++
    optField "event" ev ++
    optField "reason" (raw.Reason.map reasonJson)))

/-- Reads an optional string-valued key; a present key with a
non-string value is an error. -/
def getStr (fs : List (String × Json)) (k : String) : Except String (Option String) :=
  match Json.lookup k fs with
  | none => .ok none
  | some (.str s) => .ok (some s)
  | some _ => .error ("invalid string value for " ++ k)

/-- Reads an optional node-valued key from its textual form. -/
def getNode (fs : List (String × Json)) (k : String) : Except String (Option Node) := do
  match ← getStr fs k with
  | none => pure none
  | some s => pure (some (ParseNode s.toList))

/-- Reads an optional media-type-valued key from its textual form. -/
def getMediaType (fs : List (String × Json)) (k : String) :
    Except String (Option MediaType) := do
  match ← getStr fs k with
  | none => pure none
  | some s =>
    match ParseMediaType s.toList with
    | none => .error "invalid media type"
    | some t => pure (some t)

/-- Reads an optional event key through the validating text
unmarshaller. -/
def getEvent (fs : List (String × Json)) : Except String (Option NotificationEvent) := do
  match ← getStr fs "event" with
  | none => pure none
  | some s => do
    let e ← NotificationEvent.UnmarshalText s
    pure (some e)

/-- Decodes the entries of a metadata object; every value must be a
string. -/
def decodeMetadataEntries : List (String × Json) → Except String (List (String × String))
  | [] => .ok []
  | (k, .str v) :: rest => do
    let r ← decodeMetadataEntries rest
    .ok ((k, v) :: r)
  | _ => .error "invalid metadata value"

/-- Reads the optional metadata mapping; an absent key is the empty
mapping. -/
def getMetadata (fs : List (String × Json)) : Except String (List (String × String)) :=
  match Json.lookup "metadata" fs with
  | none => .ok []
  | some (.obj entries) => decodeMetadataEntries entries
  | some _ => .error "invalid metadata"

/-- Reads the optional reason object. -/
def getReason (fs : List (String × Json)) : Except String (Option Lime.Reason) :=
  match Json.lookup "reason" fs with
  | none => .ok none
  | some (.obj entries) => do
    let code ← match Json.lookup "code" entries with
      | none => pure (0 : Int)
      | some (.num c) => pure c
      | some _ => .error "invalid reason code"
    let descr ← match Json.lookup "description" entries with
      | none => pure ""
      | some (.str d) => pure d
      | some _ => .error "invalid reason description"
    .ok (some ⟨code, descr⟩)
  | some _ => .error "invalid reason"

/-- Modelled from the spec: the permissive first decoding phase. The
input must be a JSON object; each known key is read with its typed
decoder, unknown keys are ignored, absent keys stay absent. -/
def RawEnvelope.fromJson : Json → Except String RawEnvelope
  | .obj fs => do
    let id := (← getStr fs "id").getD ""
    let fromN ← getNode fs "from"
    let pp ← getNode fs "pp"
    let toN ← getNode fs "to"
    let md ← getMetadata fs
    let ty ← getMediaType fs "type"
    let content := Json.lookup "content" fs
    let ev ← getEvent fs
    let rs ← getReason fs
    .ok ⟨id, fromN, pp, toN, md, ty, content, ev, rs⟩
  | _ => .error "envelope must be a JSON object"

/-- JSON marshalling of a message: raw conversion then serialization. -/
def Message.MarshalJSON (m : Message) : Except String Json := do
  let raw ← m.ToRawEnvelope
  raw.toJson

/-- JSON unmarshalling of a message: permissive decode then population. -/
def Message.UnmarshalJSON (j : Json) : Except String Message := do
  let raw ← RawEnvelope.fromJson j
  Message.Populate raw

/-- JSON marshalling of a notification. -/
def Notification.MarshalJSON (n : Notification) : Except String Json := do
  let raw ← n.toRawEnvelope
  raw.toJson

/-- JSON unmarshalling of a notification. -/
def Notification.UnmarshalJSON (j : Json) : Except String Notification := do
  let raw ← RawEnvelope.fromJson j
  Notification.populate raw

/-- An envelope of one of the kinds present in the provided sources. -/
inductive Envelope where
  | message (m : Message)
  | notif (n : Notification)

/-- Modelled from the spec: kind discrimination of a raw envelope by the
presence of its marker fields (`content`+`type` is a message, `event` a
notification); the kinds whose Go sources are not provided (command,
session) are omitted. -/
def RawEnvelope.ToEnvelope (raw : RawEnvelope) : Except String Envelope :=
  if raw.Content.isSome && raw.Typ.isSome then
    (Message.Populate raw).map Envelope.message
  else if raw.Event.isSome then
    (Notification.populate raw).map Envelope.notif
  else
    .error "could not determine the envelope type"

/-- Compression option (a Go string type). -/
abbrev SessionCompression := String

def SessionCompressionNone : SessionCompression := "none"

/-- Encryption option (a Go string type). -/
abbrev SessionEncryption := String

def SessionEncryptionNone : SessionEncryption := "none"

def SessionEncryptionTLS : SessionEncryption := "tls"

/-- Default read limit of the TCP transport, in bytes. -/
def DefaultReadLimit : Int := 8192 * 1024

/-- One inbound wire frame: its size in bytes and the raw envelope its
JSON decodes to (`none` stands for malformed JSON). -/
structure Frame where
  size : Nat
  body : Option RawEnvelope

/-- The connection as seen by the transport: an abstract socket carrying
the queue of inbound frames, possibly wrapped by TLS layers. -/
inductive Conn where
  | sock (frames : List Frame)
  | tls (inner : Conn)

/-- The inbound frames still queued on a connection. -/
def Conn.frames : Conn → List Frame
  | .sock fs => fs
  | .tls c => c.frames

/-- Consuming the first queued inbound frame. -/
def Conn.dropFrame : Conn → Conn
  | .sock fs => .sock fs.tail
  | .tls c => .tls c.dropFrame

/-- State of a TCP transport, as in `tcp_transport.go`: the configured
read limit, the optional socket, the optional TLS configuration
(abstracted to its presence), the current encryption, the server flag,
and the remaining byte budget of the limited reader. -/
structure TCPTransport where
  ReadLimit : Int
  conn : Option Conn
  TLSConfig : Option Unit
  encryption : SessionEncryption
  server : Bool
  limitN : Int

/-- Installing a connection: materialize the default read limit when the
configured one is zero, and give the limited reader the full budget. -/
def TCPTransport.setConn (t : TCPTransport) (c : Conn) : TCPTransport :=
  let rl := if t.ReadLimit = 0 then DefaultReadLimit else t.ReadLimit
  { t with conn := some c, ReadLimit := rl, limitN := rl }

/-- Opening a TCP transport: wrap the freshly dialed socket (abstracted
by `c`) and start with no encryption. -/
def DialTcp (c : Conn) (tlsConf : Option Unit) : TCPTransport :=
  let t : TCPTransport :=
    { ReadLimit := 0, conn := none, TLSConfig := tlsConf,
      encryption := "", server := false, limitN := 0 }
  { t.setConn c with encryption := SessionEncryptionNone }

def TCPTransport.GetSupportedCompression (_ : TCPTransport) : List SessionCompression :=
  [SessionCompressionNone]

def TCPTransport.GetCompression (_ : TCPTransport) : SessionCompression :=
  SessionCompressionNone

/-- The TCP transport supports no compression change at all: the setter
fails for every requested value. -/
def TCPTransport.SetCompression (_ : TCPTransport) (c : SessionCompression) :
    Except String Unit :=
  .error ("compression '" ++ c ++ "' is not supported")

def TCPTransport.GetSupportedEncryption (_ : TCPTransport) : List SessionEncryption :=
  [SessionEncryptionNone, SessionEncryptionTLS]

def TCPTransport.GetEncryption (t : TCPTransport) : SessionEncryption :=
  t.encryption

/-- In-place encryption upgrade, as in `tcp_transport.go`: a request for
the current encryption is a no-op; a request for `none` is a downgrade
and fails; otherwise the existing socket is wrapped by a TLS handshake
whose network outcome is abstracted by `hsOk`. -/
def TCPTransport.SetEncryption (t : TCPTransport) (e : SessionEncryption) (hsOk : Bool) :
    Except String TCPTransport :=
  if e = t.encryption then .ok t
  else if e = SessionEncryptionNone then
    .error "cannot downgrade from tls to none encryption"
  else if e = SessionEncryptionTLS ∧ t.TLSConfig = none then
    .error "tls config must be defined"
  else
    match t.conn with
    | none => .error "tls handshake failed"
    | some c =>
      if hsOk then
        .ok { t.setConn (Conn.tls c) with encryption := SessionEncryptionTLS }
      else .error "tls handshake failed"

/-- The open check shared by send, receive and close. -/
def TCPTransport.ensureOpen (t : TCPTransport) : Except String Unit :=
  match t.conn with
  | none => .error "transport is not open"
  | some _ => .ok ()

/-- Sending one envelope: only the open check can fail in the model (the
socket write is abstracted); a closed transport is never touched. -/
def TCPTransport.Send (t : TCPTransport) (_ : Envelope) : Except String TCPTransport :=
  match t.ensureOpen with
  | .error err => .error err
  | .ok _ => .ok t

/-- Receiving one envelope: after the open check, the next frame is
decoded through the limit-bounded reader. A frame larger than the
remaining budget is truncated at the limit, which fails its JSON decode;
the model reports that failure as `frame too large`. After a successful
decode the budget is reset to the configured read limit and the raw
envelope is discriminated into an envelope. -/
def TCPTransport.Receive (t : TCPTransport) : Except String (Envelope × TCPTransport) :=
  match t.conn with
  | none => .error "transport is not open"
  | some c =>
    match c.frames with
    | [] => .error "EOF"
    | f :: _ =>
      if (f.size : Int) > t.limitN then .error "frame too large"
      else
        match f.body with
        | none => .error "invalid character in frame"
        | some raw =>
          let t' := { t with conn := some c.dropFrame, limitN := t.ReadLimit }
          match raw.ToEnvelope with
          | .error err => .error err
          | .ok env => .ok (env, t')

/-- Closing: the open check, then the socket is closed and cleared. -/
def TCPTransport.Close (t : TCPTransport) : Except String TCPTransport :=
  match t.ensureOpen with
  | .error err => .error err
  | .ok _ => .ok { t with conn := none }

def TCPTransport.IsConnected (t : TCPTransport) : Bool :=
  t.conn.isSome

theorem bind_ok {α β : Type} (a : α) (f : α → Except String β) :
    (Except.ok a >>= f) = f a := rfl

theorem bind_err {α β : Type} (e : String) (f : α → Except String β) :
    ((Except.error e : Except String α) >>= f) = .error e := rfl

theorem pure_eq_ok {α : Type} (a : α) : (pure a : Except String α) = .ok a := rfl

theorem orElse_none {α : Type} (o : Option α) : (o.orElse fun _ => none) = o := by
  cases o <;> rfl

theorem lookup_optField_ne {k k' : String} {v : Option Json} {rest : List (String × Json)}
    (h : ¬ k = k') : Json.lookup k' (optField k v ++ rest) = Json.lookup k' rest := by
  cases v <;> simp [optField, Json.lookup, h]

theorem lookup_optField {k : String} {v : Option Json} {rest : List (String × Json)} :
    Json.lookup k (optField k v ++ rest) = (v.orElse fun _ => Json.lookup k rest) := by
  cases v <;> simp [optField, Json.lookup]

theorem lookup_optField_ne_single {k k' : String} {v : Option Json}
    (h : ¬ k = k') : Json.lookup k' (optField k v) = none := by
  cases v <;> simp [optField, Json.lookup, h]

theorem lookup_optField_single {k : String} {v : Option Json} :
    Json.lookup k (optField k v) = v := by
  cases v <;> simp [optField, Json.lookup]

theorem data_asString (l : List Char) : (List.asString l).data = l := rfl

/-- The field list a raw envelope serializes to, once its event has been
validated: the shape of `RawEnvelope.toJson`'s output. -/
def rawFieldList (raw : RawEnvelope) : List (String × Json) :=
  optField "id" (if raw.ID = "" then none else some (.str raw.ID)) ++
  optField "from" (raw.From.map nodeJson) ++
  optField "pp" (raw.PP.map nodeJson) ++
  optField "to" (raw.To.map nodeJson) ++
  optField "metadata" (if raw.Metadata = [] then none else some (metadataJson raw.Metadata)) ++
  optField "type" (raw.Typ.map mtJson) ++
  optField "content" raw.Content ++
  optField "event" (raw.Event.map Json.str) ++
  optField "reason" (raw.Reason.map reasonJson)

/-- A predicate on an optional value, trivially true when absent. -/
def OptWf {α : Type} (P : α → Prop) : Option α → Prop
  | none => True
  | some x => P x

theorem toJson_eq {raw : RawEnvelope}
    (hev : OptWf (fun e => NotificationEvent.Validate e = .ok ()) raw.Event) :
    raw.toJson = .ok (.obj (rawFieldList raw)) := by
  cases hE : raw.Event with
  | none =>
    simp [RawEnvelope.toJson, hE, rawFieldList, bind_ok, pure_eq_ok]
  | some e =>
    rw [hE] at hev
    have hv : NotificationEvent.Validate e = .ok () := hev
    simp [RawEnvelope.toJson, hE, rawFieldList, NotificationEvent.MarshalText, hv,
      bind_ok, pure_eq_ok]

theorem lookup_raw_id (raw : RawEnvelope) :
    Json.lookup "id" (rawFieldList raw) =
      (if raw.ID = "" then none else some (.str raw.ID)) := by
  simp [rawFieldList, lookup_optField_ne, lookup_optField, lookup_optField_ne_single, lookup_optField_single, Json.lookup, orElse_none]

theorem lookup_raw_from (raw : RawEnvelope) :
    Json.lookup "from" (rawFieldList raw) = raw.From.map nodeJson := by
  simp [rawFieldList, lookup_optField_ne, lookup_optField, lookup_optField_ne_single, lookup_optField_single, Json.lookup, orElse_none]

theorem lookup_raw_pp (raw : RawEnvelope) :
    Json.lookup "pp" (rawFieldList raw) = raw.PP.map nodeJson := by
  simp [rawFieldList, lookup_optField_ne, lookup_optField, lookup_optField_ne_single, lookup_optField_single, Json.lookup, orElse_none]

theorem lookup_raw_to (raw : RawEnvelope) :
    Json.lookup "to" (rawFieldList raw) = raw.To.map nodeJson := by
  simp [rawFieldList, lookup_optField_ne, lookup_optField, lookup_optField_ne_single, lookup_optField_single, Json.lookup, orElse_none]

theorem lookup_raw_metadata (raw : RawEnvelope) :
    Json.lookup "metadata" (rawFieldList raw) =
      (if raw.Metadata = [] then none else some (metadataJson raw.Metadata)) := by
  simp [rawFieldList, lookup_optField_ne, lookup_optField, lookup_optField_ne_single, lookup_optField_single, Json.lookup, orElse_none]

theorem lookup_raw_type (raw : RawEnvelope) :
    Json.lookup "type" (rawFieldList raw) = raw.Typ.map mtJson := by
  simp [rawFieldList, lookup_optField_ne, lookup_optField, lookup_optField_ne_single, lookup_optField_single, Json.lookup, orElse_none]

theorem lookup_raw_content (raw : RawEnvelope) :
    Json.lookup "content" (rawFieldList raw) = raw.Content := by
  simp [rawFieldList, lookup_optField_ne, lookup_optField, lookup_optField_ne_single, lookup_optField_single, Json.lookup, orElse_none]

theorem lookup_raw_event (raw : RawEnvelope) :
    Json.lookup "event" (rawFieldList raw) = raw.Event.map Json.str := by
  simp [rawFieldList, lookup_optField_ne, lookup_optField, lookup_optField_ne_single, lookup_optField_single, Json.lookup, orElse_none]

theorem lookup_raw_reason (raw : RawEnvelope) :
    Json.lookup "reason" (rawFieldList raw) = raw.Reason.map reasonJson := by
  simp [rawFieldList, lookup_optField_ne, lookup_optField, lookup_optField_ne_single, lookup_optField_single, Json.lookup, orElse_none]

theorem decodeMetadataEntries_map (md : List (String × String)) :
    decodeMetadataEntries (md.map fun p => (p.1, Json.str p.2)) = .ok md := by
  induction md with
  | nil => rfl
  | cons p rest ih =>
    cases p with
    | mk k v => simp [decodeMetadataEntries, ih, bind_ok, pure_eq_ok]

/-- Well-formedness of a raw envelope for JSON round-tripping: the nodes
and the media type re-parse from their textual forms and the event, when
present, is one of the valid values. -/
def RawEnvelope.wf (raw : RawEnvelope) : Prop :=
  OptWf Node.wf raw.From ∧ OptWf Node.wf raw.PP ∧ OptWf Node.wf raw.To ∧
  OptWf MediaType.wf raw.Typ ∧
  OptWf (fun e => NotificationEvent.Validate e = .ok ()) raw.Event

/-- A well-formed raw envelope survives serialization followed by the
permissive decode unchanged. -/
theorem fromJson_toJson {raw : RawEnvelope} (h : raw.wf) :
    ∃ j, raw.toJson = .ok j ∧ RawEnvelope.fromJson j = .ok raw := by
  obtain ⟨hfrom, hpp, hto, hty, hev⟩ := h
  refine ⟨_, toJson_eq hev, ?_⟩
  have g_id : getStr (rawFieldList raw) "id" =
      .ok (if raw.ID = "" then none else some raw.ID) := by
    by_cases hid : raw.ID = "" <;> simp [getStr, lookup_raw_id, hid]
  have g_from : getNode (rawFieldList raw) "from" = .ok raw.From := by
    cases hF : raw.From with
    | none => simp [getNode, getStr, lookup_raw_from, hF, bind_ok, pure_eq_ok]
    | some n =>
      rw [hF] at hfrom
      simp [getNode, getStr, lookup_raw_from, hF, bind_ok, pure_eq_ok, nodeJson,
        toList_asString, data_asString, ParseNode_text hfrom]
  have g_pp : getNode (rawFieldList raw) "pp" = .ok raw.PP := by
    cases hF : raw.PP with
    | none => simp [getNode, getStr, lookup_raw_pp, hF, bind_ok, pure_eq_ok]
    | some n =>
      rw [hF] at hpp
      simp [getNode, getStr, lookup_raw_pp, hF, bind_ok, pure_eq_ok, nodeJson,
        toList_asString, data_asString, ParseNode_text hpp]
  have g_to : getNode (rawFieldList raw) "to" = .ok raw.To := by
    cases hF : raw.To with
    | none => simp [getNode, getStr, lookup_raw_to, hF, bind_ok, pure_eq_ok]
    | some n =>
      rw [hF] at hto
      simp [getNode, getStr, lookup_raw_to, hF, bind_ok, pure_eq_ok, nodeJson,
        toList_asString, data_asString, ParseNode_text hto]
  have g_md : getMetadata (rawFieldList raw) = .ok raw.Metadata := by
    by_cases hmd : raw.Metadata = []
    · simp [getMetadata, lookup_raw_metadata, hmd]
    · simp [getMetadata, lookup_raw_metadata, hmd, metadataJson,
        decodeMetadataEntries_map]
  have g_ty : getMediaType (rawFieldList raw) "type" = .ok raw.Typ := by
    cases hF : raw.Typ with
    | none => simp [getMediaType, getStr, lookup_raw_type, hF, bind_ok, pure_eq_ok]
    | some t =>
      rw [hF] at hty
      simp [getMediaType, getStr, lookup_raw_type, hF, bind_ok, pure_eq_ok, mtJson,
        toList_asString, data_asString, ParseMediaType_text hty]
  have g_ev : getEvent (rawFieldList raw) = .ok raw.Event := by
    cases hF : raw.Event with
    | none => simp [getEvent, getStr, lookup_raw_event, hF, bind_ok, pure_eq_ok]
    | some e =>
      rw [hF] at hev
      have hv : NotificationEvent.Validate e = .ok () := hev
      simp [getEvent, getStr, lookup_raw_event, hF, bind_ok, pure_eq_ok,
        NotificationEvent.UnmarshalText, hv]
  have g_rs : getReason (rawFieldList raw) = .ok raw.Reason := by
    cases hF : raw.Reason with
    | none => simp [getReason, lookup_raw_reason, hF]
    | some r =>
      simp [getReason, lookup_raw_reason, hF, reasonJson, Json.lookup,
        bind_ok, pure_eq_ok]
  have g_id2 : ((if raw.ID = "" then none else some raw.ID).getD "") = raw.ID := by
    by_cases hid : raw.ID = "" <;> simp [hid]
  simp only [RawEnvelope.fromJson, g_id, g_from, g_pp, g_to, g_md, g_ty,
    lookup_raw_content, g_ev, g_rs, bind_ok, pure_eq_ok, g_id2]

/-- Content/type agreement: the type's JSON classification matches the
document's shape (string documents under non-JSON types, object
documents under JSON types). -/
def DocTypeConsistent (t : MediaType) : Document → Prop
  | .plain _ => t.IsJson = false
  | .json _ => t.IsJson = true

theorem UnmarshalDocument_toJson {t : MediaType} {d : Document}
    (h : DocTypeConsistent t d) : UnmarshalDocument d.toJson t = .ok d := by
  by_cases h1 : t = mediaTypeTextPlain
  · subst h1
    cases d with
    | plain s => rfl
    | json f =>
      have hx : DocTypeConsistent mediaTypeTextPlain (.json f) := h
      simp [DocTypeConsistent, MediaType.IsJson, mediaTypeTextPlain] at hx
  · by_cases h2 : t = mediaTypeApplicationJson
    · subst h2
      cases d with
      | json f => rfl
      | plain s =>
        have hx : DocTypeConsistent mediaTypeApplicationJson (.plain s) := h
        simp [DocTypeConsistent, MediaType.IsJson, mediaTypeApplicationJson] at hx
    · have e1 : (mediaTypeTextPlain == t) = false := beq_eq_false_iff_ne.mpr (Ne.symm h1)
      have e2 : (mediaTypeApplicationJson == t) = false := beq_eq_false_iff_ne.mpr (Ne.symm h2)
      have hff : findFactory t = none := by
        simp [findFactory, documentFactories, List.find?, e1, e2]
      cases d with
      | plain s =>
        have hj : t.IsJson = false := h
        simp [UnmarshalDocument, hff, hj, plainFactory, Document.toJson]
      | json f =>
        have hj : t.IsJson = true := h
        simp [UnmarshalDocument, hff, hj, jsonFactory, Document.toJson]

theorem Message_ToRawEnvelope_eq {m : Message} {d : Document} (hc : m.Content = some d) :
    m.ToRawEnvelope = .ok ⟨m.Base.ID, m.Base.From, m.Base.PP, m.Base.To,
      m.Base.Metadata, some m.Typ, some d.toJson, none, none⟩ := by
  simp [Message.ToRawEnvelope, EnvelopeBase.ToRawEnvelope, bind_ok, hc]

theorem Message_Populate_raw {m : Message} {d : Document}
    (hd : DocTypeConsistent m.Typ d) :
    Message.Populate ⟨m.Base.ID, m.Base.From, m.Base.PP, m.Base.To,
      m.Base.Metadata, some m.Typ, some d.toJson, none, none⟩ =
      .ok { m with Content := some d } := by
  simp [Message.Populate, EnvelopeBase.Populate, bind_ok, pure_eq_ok,
    UnmarshalDocument_toJson hd]

theorem Notification_toRawEnvelope_eq {n : Notification} (hne : n.Event ≠ "") :
    n.toRawEnvelope = .ok ⟨n.Base.ID, n.Base.From, n.Base.PP, n.Base.To,
      n.Base.Metadata, none, none, some n.Event, n.Reason⟩ := by
  simp [Notification.toRawEnvelope, EnvelopeBase.ToRawEnvelope, bind_ok, hne]

theorem Notification_populate_raw (n : Notification) :
    Notification.populate ⟨n.Base.ID, n.Base.From, n.Base.PP, n.Base.To,
      n.Base.Metadata, none, none, some n.Event, n.Reason⟩ = .ok n := by
  simp [Notification.populate, EnvelopeBase.Populate, bind_ok, pure_eq_ok]

theorem validate_ne_empty {e : NotificationEvent}
    (hv : NotificationEvent.Validate e = .ok ()) : e ≠ "" := by
  intro he
  rw [he] at hv
  simp [NotificationEvent.Validate, NotificationEventAccepted,
    NotificationEventDispatched, NotificationEventReceived,
    NotificationEventConsumed, NotificationEventFailed] at hv

/-- The destination node used throughout the repository's message tests. -/
def sampleNode : Node := ⟨⟨"golang", "limeprotocol.org"⟩, "default"⟩

/-- The text/plain message of `TestMessage_MarshalJSON_TextPlain`. -/
def sampleMessage : Message :=
  ⟨⟨"4609d0a3-00eb-4e16-9d44-27d115c6eb31", none, none, some sampleNode, []⟩,
    mediaTypeTextPlain, some (.plain "Hello world")⟩

/-- C1: codec round-trip. For the envelope kinds whose Go sources are
provided (message, notification) and every representable envelope —
content agreeing with the declared type, addresses and type that
re-parse from their textual forms, a valid event — decoding the
serialized JSON value yields the original envelope. JSON is modelled as
a value, so equality is automatically modulo insignificant whitespace;
metadata survives with its order intact, which is stronger than equality
modulo iteration order. -/
theorem C1_codec_roundtrip :
    (∀ (m : Message) (d : Document),
      m.Content = some d → DocTypeConsistent m.Typ d → m.Typ.wf →
      OptWf Node.wf m.Base.From → OptWf Node.wf m.Base.PP → OptWf Node.wf m.Base.To →
      ∃ j, m.MarshalJSON = .ok j ∧ Message.UnmarshalJSON j = .ok m) ∧
    (∀ n : Notification,
      NotificationEvent.Validate n.Event = .ok () →
      OptWf Node.wf n.Base.From → OptWf Node.wf n.Base.PP → OptWf Node.wf n.Base.To →
      ∃ j, n.MarshalJSON = .ok j ∧ Notification.UnmarshalJSON j = .ok n) := by
  constructor
  · intro m d hc hd hty hf hp ht
    have hraw := Message_ToRawEnvelope_eq hc
    have hwf : RawEnvelope.wf ⟨m.Base.ID, m.Base.From, m.Base.PP, m.Base.To,
        m.Base.Metadata, some m.Typ, some d.toJson, none, none⟩ :=
      ⟨hf, hp, ht, hty, trivial⟩
    obtain ⟨j, hj1, hj2⟩ := fromJson_toJson hwf
    refine ⟨j, ?_, ?_⟩
    · simp [Message.MarshalJSON, hraw, bind_ok, hj1]
    · have hu : Message.UnmarshalJSON j = Message.Populate ⟨m.Base.ID, m.Base.From,
          m.Base.PP, m.Base.To, m.Base.Metadata, some m.Typ, some d.toJson,
          none, none⟩ := by
        simp [Message.UnmarshalJSON, hj2, bind_ok]
      rw [hu, Message_Populate_raw hd, ← hc]
  · intro n hv hf hp ht
    have hne := validate_ne_empty hv
    have hraw := Notification_toRawEnvelope_eq hne
    have hwf : RawEnvelope.wf ⟨n.Base.ID, n.Base.From, n.Base.PP, n.Base.To,
        n.Base.Metadata, none, none, some n.Event, n.Reason⟩ :=
      ⟨hf, hp, ht, trivial, hv⟩
    obtain ⟨j, hj1, hj2⟩ := fromJson_toJson hwf
    refine ⟨j, ?_, ?_⟩
    · simp [Notification.MarshalJSON, hraw, bind_ok, hj1]
    · have hu : Notification.UnmarshalJSON j = Notification.populate ⟨n.Base.ID,
          n.Base.From, n.Base.PP, n.Base.To, n.Base.Metadata, none, none,
          some n.Event, n.Reason⟩ := by
        simp [Notification.UnmarshalJSON, hj2, bind_ok]
      rw [hu, Notification_populate_raw]

/-- Witness for C1 at the repository's own test message. -/
theorem C1_codec_roundtrip_witness :
    ∃ j, sampleMessage.MarshalJSON = .ok j ∧
      Message.UnmarshalJSON j = .ok sampleMessage :=
  C1_codec_roundtrip.1 sampleMessage (.plain "Hello world") rfl rfl
    (by decide) trivial trivial (show Node.wf sampleNode by decide)

/-- C4: message required fields. Serializing a message with absent
content fails with `message content is required` (both at the raw
conversion and at full JSON marshalling, so no output is produced), and
populating a message from a raw envelope lacking `type` or `content`
fails with the corresponding error, so no message is constructed. -/
theorem C4_message_required_fields :
    (∀ m : Message, m.Content = none →
      m.ToRawEnvelope = .error "message content is required") ∧
    (∀ m : Message, m.Content = none →
      m.MarshalJSON = .error "message content is required") ∧
    (∀ raw : RawEnvelope, raw.Typ = none →
      Message.Populate raw = .error "message type is required") ∧
    (∀ (raw : RawEnvelope) (t : MediaType), raw.Typ = some t → raw.Content = none →
      Message.Populate raw = .error "message content is required") := by
  refine ⟨?_, ?_, ?_, ?_⟩
  · intro m hc
    simp [Message.ToRawEnvelope, EnvelopeBase.ToRawEnvelope, bind_ok, hc]
  · intro m hc
    simp [Message.MarshalJSON, Message.ToRawEnvelope, EnvelopeBase.ToRawEnvelope,
      bind_ok, bind_err, hc]
  · intro raw hty
    simp [Message.Populate, EnvelopeBase.Populate, bind_ok, hty]
  · intro raw t hty hc
    simp [Message.Populate, EnvelopeBase.Populate, bind_ok, hty, hc]

/-- Witness for C4 at concrete envelopes. -/
theorem C4_message_required_fields_witness :
    ({ Base := ⟨"1", none, none, none, []⟩, Typ := mediaTypeTextPlain,
       Content := none } : Message).ToRawEnvelope =
        .error "message content is required" ∧
    Message.Populate ⟨"1", none, none, none, [], none, some (.str "x"), none, none⟩ =
        .error "message type is required" ∧
    Message.Populate ⟨"1", none, none, none, [], some mediaTypeTextPlain, none,
        none, none⟩ = .error "message content is required" :=
  ⟨C4_message_required_fields.1 _ rfl,
   C4_message_required_fields.2.2.1 _ rfl,
   C4_message_required_fields.2.2.2 _ mediaTypeTextPlain rfl rfl⟩

/-- C5: the notification event enum. Validation (hence text marshalling
in both directions) succeeds exactly on the five declared values; any
other string is rejected with the `invalid notification event` error;
and populating a notification from a raw envelope with no event fails. -/
theorem C5_notification_event_enum :
    (∀ e : NotificationEvent,
      (NotificationEvent.Validate e = .ok () ↔
        e ∈ ["accepted", "dispatched", "received", "consumed", "failed"])) ∧
    (∀ e : NotificationEvent,
      e ∉ ["accepted", "dispatched", "received", "consumed", "failed"] →
      NotificationEvent.MarshalText e =
        .error ("invalid notification event '" ++ e ++ "'") ∧
      NotificationEvent.UnmarshalText e =
        .error ("invalid notification event '" ++ e ++ "'")) ∧
    (∀ e : NotificationEvent,
      e ∈ ["accepted", "dispatched", "received", "consumed", "failed"] →
      NotificationEvent.MarshalText e = .ok e ∧
      NotificationEvent.UnmarshalText e = .ok e) ∧
    (∀ raw : RawEnvelope, raw.Event = none →
      Notification.populate raw = .error "notification event is required") := by
  have hval : ∀ e : NotificationEvent,
      (NotificationEvent.Validate e = .ok () ↔
        e ∈ ["accepted", "dispatched", "received", "consumed", "failed"]) := by
    intro e
    by_cases hp : e = NotificationEventAccepted ∨ e = NotificationEventDispatched ∨
        e = NotificationEventReceived ∨ e = NotificationEventConsumed ∨
        e = NotificationEventFailed
    · rw [NotificationEvent.Validate, if_pos hp]
      simpa [NotificationEventAccepted, NotificationEventDispatched,
        NotificationEventReceived, NotificationEventConsumed,
        NotificationEventFailed] using hp
    · rw [NotificationEvent.Validate, if_neg hp]
      simp only [NotificationEventAccepted, NotificationEventDispatched,
        NotificationEventReceived, NotificationEventConsumed,
        NotificationEventFailed] at hp
      simp [hp]
  have hvalerr : ∀ e : NotificationEvent,
      e ∉ ["accepted", "dispatched", "received", "consumed", "failed"] →
      NotificationEvent.Validate e =
        .error ("invalid notification event '" ++ e ++ "'") := by
    intro e he
    have hp : ¬ (e = NotificationEventAccepted ∨ e = NotificationEventDispatched ∨
        e = NotificationEventReceived ∨ e = NotificationEventConsumed ∨
        e = NotificationEventFailed) := by
      simpa [NotificationEventAccepted, NotificationEventDispatched,
        NotificationEventReceived, NotificationEventConsumed,
        NotificationEventFailed] using he
    rw [NotificationEvent.Validate, if_neg hp]
  refine ⟨hval, ?_, ?_, ?_⟩
  · intro e he
    constructor
    · rw [NotificationEvent.MarshalText, hvalerr e he]
    · rw [NotificationEvent.UnmarshalText, hvalerr e he]
    -- each marshaller propagates the validation error verbatim
  · intro e he
    have hv := (hval e).mpr he
    constructor
    · rw [NotificationEvent.MarshalText, hv]
    · rw [NotificationEvent.UnmarshalText, hv]
  · intro raw hE
    simp [Notification.populate, EnvelopeBase.Populate, bind_ok, hE]

/-- Witness for C5 at concrete events. -/
theorem C5_notification_event_enum_witness :
    NotificationEvent.UnmarshalText "failed" = .ok "failed" ∧
    NotificationEvent.UnmarshalText "delivered" =
      .error "invalid notification event 'delivered'" ∧
    Notification.populate ⟨"1", none, none, none, [], none, none, none, none⟩ =
      .error "notification event is required" :=
  ⟨(C5_notification_event_enum.2.2.1 "failed" (by decide)).2,
   (C5_notification_event_enum.2.1 "delivered" (by decide)).2,
   C5_notification_event_enum.2.2.2 _ rfl⟩

/-- C6: document fallback. With no registered factory, a `+json` MIME
type decodes an object payload into the generic JSON mapping document,
and a non-JSON MIME type decodes a string payload into the raw string
document. -/
theorem C6_document_fallback :
    (∀ (t : MediaType) (f : List (String × Json)),
      findFactory t = none → t.IsJson = true →
      UnmarshalDocument (.obj f) t = .ok (.json f)) ∧
    (∀ (t : MediaType) (s : String),
      findFactory t = none → t.IsJson = false →
      UnmarshalDocument (.str s) t = .ok (.plain s)) := by
  constructor
  · intro t f hff hj
    simp [UnmarshalDocument, hff, hj, jsonFactory]
  · intro t s hff hj
    simp [UnmarshalDocument, hff, hj, plainFactory]

/-- Witness for C6 at the media types of the repository's tests:
`application/x-unknown+json` and `text/unknown`. -/
theorem C6_document_fallback_witness :
    UnmarshalDocument (.obj [("property1", .str "value1")])
        ⟨"application", "x-unknown", "json"⟩ =
      .ok (.json [("property1", .str "value1")]) ∧
    UnmarshalDocument (.str "Hello world") ⟨"text", "unknown", ""⟩ =
      .ok (.plain "Hello world") :=
  ⟨C6_document_fallback.1 ⟨"application", "x-unknown", "json"⟩ _ rfl rfl,
   C6_document_fallback.2 ⟨"text", "unknown", ""⟩ "Hello world" rfl rfl⟩

/-- C7 counterexample: the codec accepts a notification whose event is
`failed` and whose reason is absent, so "every notification accepted by
the codec with event `failed` has reason present" fails on the code. -/
theorem C7_counterexample :
    Notification.populate ⟨"1", none, none, none, [], none, none,
        some "failed", none⟩ =
      .ok ⟨⟨"1", none, none, none, []⟩, "failed", none⟩ ∧
    (⟨⟨"1", none, none, none, []⟩, "failed", none⟩ : Notification).Event =
      NotificationEventFailed ∧
    (⟨⟨"1", none, none, none, []⟩, "failed", none⟩ : Notification).Reason = none := by
  exact ⟨rfl, rfl, rfl⟩

/-- C7 amended: the codec copies the reason verbatim in both directions
and does not enforce the SHOULD: a populated notification carries a
reason exactly when its raw envelope does, and a serialized notification
emits exactly the reason it carries. -/
theorem C7_amended_reason_verbatim :
    (∀ (raw : RawEnvelope) (n : Notification),
      Notification.populate raw = .ok n → n.Reason = raw.Reason) ∧
    (∀ (n : Notification) (raw : RawEnvelope),
      n.toRawEnvelope = .ok raw → raw.Reason = n.Reason) := by
  constructor
  · intro raw n h
    cases hE : raw.Event with
    | none => simp [Notification.populate, EnvelopeBase.Populate, bind_ok, hE] at h
    | some e =>
      simp [Notification.populate, EnvelopeBase.Populate, bind_ok, pure_eq_ok, hE] at h
      rw [← h]
  · intro n raw h
    by_cases hne : n.Event = ""
    · simp [Notification.toRawEnvelope, EnvelopeBase.ToRawEnvelope, bind_ok, hne] at h
      rw [← h]
    · rw [Notification_toRawEnvelope_eq hne] at h
      rw [← Except.ok.inj h]

/-- Witness for C7's amended claim at a failed notification carrying a
reason on the wire. -/
theorem C7_amended_reason_verbatim_witness :
    (⟨⟨"1", none, none, none, []⟩, "failed", some ⟨42, "timeout"⟩⟩ : Notification).Reason =
      (⟨"1", none, none, none, [], none, none, some "failed",
        some ⟨42, "timeout"⟩⟩ : RawEnvelope).Reason :=
  C7_amended_reason_verbatim.1 _ _ rfl

theorem toJson_shape {raw : RawEnvelope} {js : Json} (h : raw.toJson = .ok js) :
    js = .obj (rawFieldList raw) := by
  cases hE : raw.Event with
  | none =>
    rw [toJson_eq (show OptWf _ raw.Event by rw [hE]; trivial)] at h
    exact (Except.ok.inj h).symm
  | some e =>
    cases hv : NotificationEvent.Validate e with
    | error err =>
      rw [RawEnvelope.toJson, hE] at h
      simp [NotificationEvent.MarshalText, hv, bind_err] at h
    | ok u =>
      cases u
      rw [toJson_eq (show OptWf _ raw.Event by rw [hE]; exact hv)] at h
      exact (Except.ok.inj h).symm

/-- C8: serialization surface form. In the serialized JSON object of any
raw envelope, the `metadata` key is absent exactly when the metadata
mapping is empty; a non-empty mapping is emitted as a string-to-string
object; and a node-valued `to` is emitted as the textual form
`name@domain/instance` rather than as a nested object. -/
theorem C8_surface_form :
    ∀ (raw : RawEnvelope) (j : List (String × Json)), raw.toJson = .ok (.obj j) →
      (raw.Metadata = [] → Json.lookup "metadata" j = none) ∧
      (raw.Metadata ≠ [] → Json.lookup "metadata" j =
        some (.obj (raw.Metadata.map fun p => (p.1, Json.str p.2)))) ∧
      (∀ n : Node, raw.To = some n →
        n.Ident.Domain ≠ "" → n.Inst ≠ "" →
        Json.lookup "to" j =
          some (.str (n.Ident.Name ++ "@" ++ n.Ident.Domain ++ "/" ++ n.Inst))) := by
  intro raw j h
  have hj : Json.obj j = .obj (rawFieldList raw) := toJson_shape h
  have hj' : j = rawFieldList raw := by
    injection hj
  subst hj'
  refine ⟨?_, ?_, ?_⟩
  · intro hmd
    rw [lookup_raw_metadata, if_pos hmd]
  · intro hmd
    rw [lookup_raw_metadata, if_neg hmd]
    rfl
  · intro n hto hdom hins
    rw [lookup_raw_to, hto]
    have htext : n.text.asString =
        n.Ident.Name ++ "@" ++ n.Ident.Domain ++ "/" ++ n.Inst := by
      apply String.ext
      show n.text = _
      rw [Node.text, Identity.text, if_neg hdom, if_neg hins]
      simp [String.data_append]
    simp [nodeJson, htext]

/-- Witness for C8 at the metadata test message's raw envelope. -/
theorem C8_surface_form_witness :
    (Json.lookup "metadata"
        (rawFieldList ⟨"4609d0a3-00eb-4e16-9d44-27d115c6eb31", none, none,
          some sampleNode, [("property1", "value1"), ("property2", "value2")],
          some mediaTypeTextPlain, some (.str "Hello world"), none, none⟩) =
      some (.obj [("property1", .str "value1"), ("property2", .str "value2")])) ∧
    (Json.lookup "to"
        (rawFieldList ⟨"4609d0a3-00eb-4e16-9d44-27d115c6eb31", none, none,
          some sampleNode, [], some mediaTypeTextPlain,
          some (.str "Hello world"), none, none⟩) =
      some (.str "golang@limeprotocol.org/default")) ∧
    (Json.lookup "metadata"
        (rawFieldList ⟨"4609d0a3-00eb-4e16-9d44-27d115c6eb31", none, none,
          some sampleNode, [], some mediaTypeTextPlain,
          some (.str "Hello world"), none, none⟩) = none) :=
  ⟨((C8_surface_form
      ⟨"4609d0a3-00eb-4e16-9d44-27d115c6eb31", none, none, some sampleNode,
        [("property1", "value1"), ("property2", "value2")], some mediaTypeTextPlain,
        some (.str "Hello world"), none, none⟩ _ (toJson_eq trivial)).2.1 (by decide)),
   ((C8_surface_form
      ⟨"4609d0a3-00eb-4e16-9d44-27d115c6eb31", none, none, some sampleNode, [],
        some mediaTypeTextPlain, some (.str "Hello world"), none, none⟩ _
      (toJson_eq trivial)).2.2 sampleNode rfl (by decide) (by decide)),
   ((C8_surface_form
      ⟨"4609d0a3-00eb-4e16-9d44-27d115c6eb31", none, none, some sampleNode, [],
        some mediaTypeTextPlain, some (.str "Hello world"), none, none⟩ _
      (toJson_eq trivial)).1 rfl)⟩

/-- C2: read limit. Installing a connection on a transport whose
configured read limit is zero materializes the 8 MiB default
(8192*1024 bytes) as both the configured limit and the reader budget;
a queued frame strictly larger than the remaining budget — one byte
over included — fails the receive as frame too large; and after every
successful receive the budget is restored to the configured limit for
the next frame. -/
theorem C2_read_limit :
    (∀ (t : TCPTransport) (c : Conn), t.ReadLimit = 0 →
      (t.setConn c).ReadLimit = 8192 * 1024 ∧ (t.setConn c).limitN = 8192 * 1024) ∧
    (∀ (t : TCPTransport) (c : Conn) (f : Frame) (rest : List Frame),
      t.conn = some c → c.frames = f :: rest → (f.size : Int) > t.limitN →
      t.Receive = .error "frame too large") ∧
    (∀ (t t' : TCPTransport) (env : Envelope),
      t.Receive = .ok (env, t') → t'.limitN = t.ReadLimit) := by
  refine ⟨?_, ?_, ?_⟩
  · intro t c h
    constructor <;> simp [TCPTransport.setConn, h, DefaultReadLimit]
  · intro t c f rest hc hf hsz
    simp [TCPTransport.Receive, hc, hf, hsz]
  · intro t t' env hr
    cases hc : t.conn with
    | none => simp [TCPTransport.Receive, hc] at hr
    | some c =>
      cases hf : c.frames with
      | nil => simp [TCPTransport.Receive, hc, hf] at hr
      | cons f rest =>
        by_cases hsz : (f.size : Int) > t.limitN
        · simp [TCPTransport.Receive, hc, hf, hsz] at hr
        · cases hb : f.body with
          | none => simp [TCPTransport.Receive, hc, hf, hsz, hb] at hr
          | some raw =>
            cases he : raw.ToEnvelope with
            | error err => simp [TCPTransport.Receive, hc, hf, hsz, hb, he] at hr
            | ok env2 =>
              simp [TCPTransport.Receive, hc, hf, hsz, hb, he] at hr
              rw [← hr.2]

/-- Witness for C2: the default materializes on a fresh transport and a
frame one byte over an 8-byte limit is rejected while an in-budget frame
resets the budget. -/
theorem C2_read_limit_witness :
    (({ ReadLimit := 0, conn := none, TLSConfig := none, encryption := "",
        server := false, limitN := 0 } : TCPTransport).setConn
          (Conn.sock [])).ReadLimit = 8192 * 1024 ∧
    ({ ReadLimit := 8, conn := some (Conn.sock [⟨9, none⟩]), TLSConfig := none,
        encryption := "none", server := false, limitN := 8 } :
      TCPTransport).Receive = .error "frame too large" :=
  ⟨(C2_read_limit.1 _ (Conn.sock []) rfl).1,
   C2_read_limit.2.1 _ (Conn.sock [⟨9, none⟩]) ⟨9, none⟩ [] rfl rfl (by decide)⟩

/-- C3: encryption upgrade. A successful `SetEncryption` to TLS records
TLS as the current encryption and, unless the transport was already on
TLS, wraps the existing socket in place; and on a transport whose
current encryption is TLS, `SetEncryption` to none always fails with the
downgrade error. -/
theorem C3_encryption_upgrade :
    (∀ (t : TCPTransport) (hsOk : Bool) (t' : TCPTransport),
      t.SetEncryption SessionEncryptionTLS hsOk = .ok t' →
      t'.GetEncryption = SessionEncryptionTLS ∧
      (t.encryption ≠ SessionEncryptionTLS →
        ∃ c, t.conn = some c ∧ t'.conn = some (Conn.tls c))) ∧
    (∀ (t : TCPTransport) (hsOk : Bool),
      t.GetEncryption = SessionEncryptionTLS →
      t.SetEncryption SessionEncryptionNone hsOk =
        .error "cannot downgrade from tls to none encryption") := by
  constructor
  · intro t hsOk t' h
    by_cases h1 : SessionEncryptionTLS = t.encryption
    · rw [TCPTransport.SetEncryption, if_pos h1] at h
      have ht : t = t' := Except.ok.inj h
      subst ht
      exact ⟨h1.symm, fun hne => absurd h1.symm hne⟩
    · by_cases h2 : t.TLSConfig = none
      · rw [TCPTransport.SetEncryption, if_neg h1,
          if_neg (show ¬ SessionEncryptionTLS = SessionEncryptionNone by decide),
          if_pos ⟨rfl, h2⟩] at h
        simp at h
      · cases hc : t.conn with
        | none =>
          rw [TCPTransport.SetEncryption, if_neg h1,
            if_neg (show ¬ SessionEncryptionTLS = SessionEncryptionNone by decide),
            if_neg (fun hand => h2 hand.2), hc] at h
          simp at h
        | some c =>
          rw [TCPTransport.SetEncryption, if_neg h1,
            if_neg (show ¬ SessionEncryptionTLS = SessionEncryptionNone by decide),
            if_neg (fun hand => h2 hand.2), hc] at h
          cases hs : hsOk with
          | false =>
            rw [hs] at h
            simp at h
          | true =>
            rw [hs] at h
            simp at h
            subst h
            exact ⟨rfl, fun _ => ⟨c, rfl, rfl⟩⟩
  · intro t hsOk henc
    have henc' : t.encryption = SessionEncryptionTLS := henc
    rw [TCPTransport.SetEncryption, henc',
      if_neg (show ¬ SessionEncryptionNone = SessionEncryptionTLS by decide),
      if_pos rfl]

/-- Witness for C3: upgrading a plaintext transport succeeds and wraps
the socket; downgrading a TLS transport fails. -/
theorem C3_encryption_upgrade_witness :
    (({ ReadLimit := 8, conn := some (Conn.sock []), TLSConfig := some (),
        encryption := "tls", server := false, limitN := 8 } :
      TCPTransport).SetEncryption SessionEncryptionNone true =
        .error "cannot downgrade from tls to none encryption") ∧
    (({ ReadLimit := 8, conn := some (Conn.tls (Conn.sock [])), TLSConfig := some (),
        encryption := "tls", server := false, limitN := 8 } :
      TCPTransport).GetEncryption = SessionEncryptionTLS) := by
  constructor
  · exact C3_encryption_upgrade.2 _ true rfl
  · exact (C3_encryption_upgrade.1
      { ReadLimit := 8, conn := some (Conn.sock []), TLSConfig := some (),
        encryption := "none", server := false, limitN := 8 } true
      { ReadLimit := 8, conn := some (Conn.tls (Conn.sock [])), TLSConfig := some (),
        encryption := "tls", server := false, limitN := 8 } rfl).1

/-- C9: the TCP compression setter fails for every requested value —
`none` included — although the supported list and the getter both
report exactly `none`. -/
theorem C9_set_compression_always_fails :
    ∀ (t : TCPTransport) (c : SessionCompression),
      t.SetCompression c = .error ("compression '" ++ c ++ "' is not supported") ∧
      t.SetCompression SessionCompressionNone =
        .error "compression 'none' is not supported" ∧
      t.GetSupportedCompression = [SessionCompressionNone] ∧
      t.GetCompression = SessionCompressionNone := by
  intro t c
  exact ⟨rfl, rfl, rfl, rfl⟩

/-- C10: closed-transport behavior. After a successful close the
transport reports disconnected, and close, send and receive all fail
with `transport is not open` — in particular a second close fails, so
close is not idempotent. -/
theorem C10_closed_transport :
    ∀ t t' : TCPTransport, t.Close = .ok t' →
      t'.IsConnected = false ∧
      t'.Close = .error "transport is not open" ∧
      (∀ e : Envelope, t'.Send e = .error "transport is not open") ∧
      t'.Receive = .error "transport is not open" := by
  intro t t' h
  cases hc : t.conn with
  | none => simp [TCPTransport.Close, TCPTransport.ensureOpen, hc] at h
  | some c =>
    simp [TCPTransport.Close, TCPTransport.ensureOpen, hc] at h
    refine ⟨?_, ?_, ?_, ?_⟩ <;>
      simp [← h, TCPTransport.IsConnected, TCPTransport.Close,
        TCPTransport.ensureOpen, TCPTransport.Send, TCPTransport.Receive]

/-- Witness for C10 at a concrete open transport: closing it yields the
cleared transport, on which the closed-transport behavior holds. -/
theorem C10_closed_transport_witness :
    ({ ReadLimit := 8, conn := none, TLSConfig := none,
        encryption := "none", server := false, limitN := 8 } :
      TCPTransport).IsConnected = false ∧
    ({ ReadLimit := 8, conn := none, TLSConfig := none,
        encryption := "none", server := false, limitN := 8 } :
      TCPTransport).Close = .error "transport is not open" := by
  have hres := C10_closed_transport
    { ReadLimit := 8, conn := some (Conn.sock []), TLSConfig := none,
      encryption := "none", server := false, limitN := 8 }
    { ReadLimit := 8, conn := none, TLSConfig := none,
      encryption := "none", server := false, limitN := 8 } rfl
  exact ⟨hres.1, hres.2.1⟩

end Lime
